import Mathlib

/-!
Verification of the CHORD compiler/runtime (chord_compiler.py, chord_runtime.py)
against its natural-language specification.

The embedding below translates the Python source into Lean:
 - Python values flowing through node properties, selector parameters, IR
   dictionaries etc. become the inductive type `Value` (strings, integers,
   booleans, None, lists, dicts as association lists in insertion order).
 - Python stdlib text helpers used by the source (str.splitlines, str.split,
   str.replace, str.lower/upper, slicing) are modelled by explicit executable
   functions with Python semantics (`pySplitlines`, `pySplitWS`, `pyReplace`,
   `pySliceFirst`, `pySliceLast`, ...).
 - External collaborators that the repository merely calls (the file system,
   os.environ, the `re` regex module on arbitrary patterns, json.dumps/loads,
   Path.glob) are abstracted into an `Oracles` record of function parameters;
   all repository-level logic around those calls is modelled faithfully.
 - Exceptions become `Except String`; the error strings mirror the Python
   messages (or name the exception class for stdlib-raised errors).
-/

/-- Python values as they appear in CHORD node properties / IR documents.
Numbers are modelled as integers (no claim exercises decimal literals). -/
inductive Value where
  | str (s : String)
  | int (n : Int)
  | bool (b : Bool)
  | null
  | arr (xs : List Value)
  | obj (kvs : List (String × Value))
deriving Repr

mutual

/-- Structural equality on values, modelling Python `==` for the value shapes
that occur in the IR (cross-type numeric equalities like `1 == True` are not
exercised by any claim). -/
def Value.beq : Value → Value → Bool
  | .str a, .str b => a == b
  | .int a, .int b => a == b
  | .bool a, .bool b => a == b
  | .null, .null => true
  | .arr a, .arr b => Value.beqList a b
  | .obj a, .obj b => Value.beqDict a b
  | _, _ => false

def Value.beqList : List Value → List Value → Bool
  | [], [] => true
  | a :: as_, b :: bs => Value.beq a b && Value.beqList as_ bs
  | _, _ => false

def Value.beqDict : List (String × Value) → List (String × Value) → Bool
  | [], [] => true
  | (ka, va) :: as_, (kb, vb) :: bs => ka == kb && Value.beq va vb && Value.beqDict as_ bs
  | _, _ => false

end

instance : BEq Value := ⟨Value.beq⟩

/-- `d.get(k, dflt)` on a Python dict modelled as an association list. -/
def dictGetD (d : List (String × Value)) (k : String) (dflt : Value) : Value :=
  (d.lookup k).getD dflt

/-- `d[k] = v` on a Python dict: overwrite in place if the key exists
(keeping its position, as CPython dicts do), else append. -/
def dictInsert (d : List (String × Value)) (k : String) (v : Value) :
    List (String × Value) :=
  if (d.lookup k).isSome then d.map (fun p => if p.1 = k then (k, v) else p)
  else d ++ [(k, v)]

/-- `pre` is a prefix of `s` (models Python str.startswith). -/
def strStartsWith (s pre : String) : Bool := pre.data.isPrefixOf s.data

/-- `suf` is a suffix of `s` (models Python str.endswith). -/
def strEndsWith (s suf : String) : Bool := suf.data.isSuffixOf s.data

/-- `s[n:]` for a nonnegative `n` (models Python string slicing from `n`). -/
def strDrop (n : Nat) (s : String) : String := String.mk (s.data.drop n)

/-- Substring containment (models Python `sub in s`). -/
def containsSub (s sub : String) : Bool :=
  s.data.tails.any (fun t => sub.data.isPrefixOf t)

/-- `sep.join(parts)` (models Python str.join). -/
def pyJoin (sep : String) : List String → String
  | [] => ""
  | [x] => x
  | x :: xs => x ++ sep ++ pyJoin sep xs

/-- `s.split(c)` for a one-character separator (models Python str.split(c)). -/
def splitOnCharAux (sep : Char) : List Char → List Char → List String
  | [], acc => [String.mk acc.reverse]
  | c :: cs, acc =>
      if c = sep then String.mk acc.reverse :: splitOnCharAux sep cs []
      else splitOnCharAux sep cs (c :: acc)

def splitOnChar (sep : Char) (s : String) : List String :=
  splitOnCharAux sep s.data []

/-- Python str.splitlines: split at \n, \r\n or \r, no trailing empty line. -/
def splitlinesAux : List Char → List Char → List String
  | [], acc => if acc.isEmpty then [] else [String.mk acc.reverse]
  | '\r' :: '\n' :: cs, acc => String.mk acc.reverse :: splitlinesAux cs []
  | '\n' :: cs, acc => String.mk acc.reverse :: splitlinesAux cs []
  | '\r' :: cs, acc => String.mk acc.reverse :: splitlinesAux cs []
  | c :: cs, acc => splitlinesAux cs (c :: acc)

def pySplitlines (s : String) : List String := splitlinesAux s.data []

/-- Python str.split() with no argument: split on whitespace runs, no empties. -/
def splitWSAux : List Char → List Char → List String
  | [], acc => if acc.isEmpty then [] else [String.mk acc.reverse]
  | c :: cs, acc =>
      if c.isWhitespace then
        (if acc.isEmpty then splitWSAux cs [] else String.mk acc.reverse :: splitWSAux cs [])
      else splitWSAux cs (c :: acc)

def pySplitWS (s : String) : List String := splitWSAux s.data []

/-- Python str.lower (ASCII; the claims use ASCII text only). -/
def pyLower (s : String) : String := String.mk (s.data.map Char.toLower)

/-- Python str.upper (ASCII). -/
def pyUpper (s : String) : String := String.mk (s.data.map Char.toUpper)

/-- If `pat` is a literal prefix of the list, return the remainder. -/
def dropPrefixCh : List Char → List Char → Option (List Char)
  | [], cs => some cs
  | _ :: _, [] => none
  | p :: ps, c :: cs => if p = c then dropPrefixCh ps cs else none

/-- Python str.replace: replace every non-overlapping occurrence of `pat`,
scanning left to right. Fuel-driven so that the kernel can evaluate it; the
fuel supplied by `pyReplace` (input length plus one) is always sufficient
because every step consumes at least one character. Empty patterns never
occur at the call sites in the source. -/
def replaceFuel (pat repl : List Char) : Nat → List Char → List Char
  | 0, cs => cs
  | _ + 1, [] => []
  | fuel + 1, c :: cs =>
      if pat.isEmpty then c :: replaceFuel pat repl fuel cs
      else
        match dropPrefixCh pat (c :: cs) with
        | some rest => repl ++ replaceFuel pat repl fuel rest
        | none => c :: replaceFuel pat repl fuel cs

def pyReplace (s pat repl : String) : String :=
  String.mk (replaceFuel pat.data repl.data (s.data.length + 1) s.data)

/-- Python slice `l[:n]` where `n` may be negative. -/
def pySliceFirst (l : List α) (n : Int) : List α :=
  if 0 ≤ n then l.take n.toNat else l.take (l.length - (-n).toNat)

/-- Python slice `l[-n:]` as used by TailSelector (`l[-n:]` for the stored
parameter `n`): `n = 0` yields the whole list, negative `n` drops `-n` from
the front. -/
def pySliceLast (l : List α) (n : Int) : List α :=
  if 0 < n then l.drop (l.length - n.toNat) else l.drop ((-n).toNat)

/-- Clamp a (possibly negative) Python slice index to `[0, len]`. -/
def pyIdxClamp (len : Nat) (i : Int) : Nat :=
  if i < 0 then ((len : Int) + i).toNat else min i.toNat len

/-- Python slice `l[a:b]` with arbitrary integer bounds. -/
def pySlice (l : List α) (a b : Int) : List α :=
  (l.take (pyIdxClamp l.length b)).drop (pyIdxClamp l.length a)

mutual

/-- Python str() of a value: identity on strings, repr-based elsewhere. -/
def pyStr : Value → String
  | .str s => s
  | v => pyRepr v

/-- Python repr() of a value (enough fidelity for the value shapes the
claims exercise: strings without quote characters, ints, bools, None,
and lists/dicts of those). -/
def pyRepr : Value → String
  | .str s => "\x27" ++ s ++ "\x27"
  | .int n => toString n
  | .bool b => if b then "True" else "False"
  | .null => "None"
  | .arr xs => "[" ++ pyReprList xs ++ "]"
  | .obj kvs => "\x7b" ++ pyReprDict kvs ++ "\x7d"

def pyReprList : List Value → String
  | [] => ""
  | [v] => pyRepr v
  | v :: rest => pyRepr v ++ ", " ++ pyReprList rest

def pyReprDict : List (String × Value) → String
  | [] => ""
  | [(k, v)] => "\x27" ++ k ++ "\x27: " ++ pyRepr v
  | (k, v) :: rest => "\x27" ++ k ++ "\x27: " ++ pyRepr v ++ ", " ++ pyReprDict rest

end

/-- Python truthiness of a value. -/
def pyTruthy : Value → Bool
  | .str s => !s.isEmpty
  | .int n => n != 0
  | .bool b => b
  | .null => false
  | .arr xs => !xs.isEmpty
  | .obj kvs => !kvs.isEmpty

/-- Python int(x) for int-like parameter values; Python bool is an int
subtype, so True/False slice as 1/0. Other types raise TypeError at the
arithmetic/slicing call sites, which the callers model as errors. -/
def asPyInt : Value → Option Int
  | .int n => some n
  | .bool b => some (if b then 1 else 0)
  | _ => none


/-! ## Compiler: graph data model and reference resolution (chord_compiler.py) -/

/-- A parsed node of the source graph (`Node` dataclass in chord_compiler.py):
the node type is stored as its string value (the `NodeType` enum's `.value`).
The diagnostic source line is omitted; it never influences compilation. -/
structure GNode where
  type : String
  id : String
  properties : List (String × Value)
  metadata : List (String × Value)

/-- The parsed graph (`Graph` dataclass): the id-to-node map, modelled as an
association list in insertion order. The `metadata`/`imports` fields are
never read by the compiler and are omitted. -/
structure Graph where
  nodes : List (String × GNode)

/-- The property-path walk at the end of `Compiler.resolve_reference`: starting
from the referenced node's properties, look up one segment at a time; if the
current value is not a mapping or lacks the segment, return the original
reference string `@ref` (the soft-fail branch, `return f"@{ref}"`). -/
def navigate (ref : String) : Value → List String → Value
  | v, [] => v
  | .obj kvs, part :: rest =>
      match kvs.lookup part with
      | some v => navigate ref v rest
      | none => .str ("@" ++ ref)
  | _, _ :: _ => .str ("@" ++ ref)

/-- `Compiler.resolve_reference(ref, context)` (the `context` argument is
unused in the source). Raising `ValueError` is modelled as `.error`. -/
def resolveReference (g : Graph) (ref : String) : Except String Value :=
  if strStartsWith ref "@" then
    let r := strDrop 1 ref
    if strStartsWith r "\x7b" && strEndsWith r "\x7d" then
      .ok (.str ("@" ++ r))
    else
      match splitOnChar '.' r with
      | [] => .error ("Unknown reference: @" ++ r)
      | nodeId :: restParts =>
          match g.nodes.lookup nodeId with
          | none => .error ("Unknown reference: @" ++ r)
          | some node =>
              match restParts with
              | [] => .ok (.str ("@" ++ nodeId))
              | _ :: _ => .ok (navigate r (Value.obj node.properties) restParts)
  else .ok (.str ref)

/-- One element of the list comprehension inside `compile_node` /
`compile_object`: a string element beginning with `@` is resolved, every
other element (including nested dicts and lists) is passed through as is. -/
def compileArrayElem (g : Graph) (v : Value) : Except String Value :=
  match v with
  | .str s => if strStartsWith s "@" then resolveReference g s else .ok (.str s)
  | v => .ok v

def compileArrayElems (g : Graph) : List Value → Except String (List Value)
  | [] => .ok []
  | v :: vs => do
      let v' ← compileArrayElem g v
      let vs' ← compileArrayElems g vs
      .ok (v' :: vs')

mutual

/-- The per-property-value branching shared verbatim by `compile_node` and
`Compiler.compile_object`: resolve `@`-strings, map `compileArrayElem` over
lists, recurse into dicts, pass everything else through. -/
def compileValue (g : Graph) : Value → Except String Value
  | .str s => if strStartsWith s "@" then resolveReference g s else .ok (.str s)
  | .arr xs => (compileArrayElems g xs).map Value.arr
  | .obj kvs => (compileObject g kvs).map Value.obj
  | v => .ok v

/-- `Compiler.compile_object`. -/
def compileObject (g : Graph) : List (String × Value) → Except String (List (String × Value))
  | [] => .ok []
  | (k, v) :: rest => do
      let v' ← compileValue g v
      let rest' ← compileObject g rest
      .ok ((k, v') :: rest')

end

/-- A compiled node as emitted by `Compiler.compile_node`: the `metadata` key
is present only when the parsed metadata dict is truthy (nonempty). -/
structure CompiledNode where
  type : String
  id : String
  properties : List (String × Value)
  metadata : Option (List (String × Value))
deriving Repr

/-- `Compiler.compile_node`. Its per-property loop performs exactly the
branching of `compile_object` (same four cases, same calls), so the
properties are compiled through `compileObject`. -/
def compile_node (g : Graph) (n : GNode) : Except String CompiledNode := do
  let props ← compileObject g n.properties
  .ok { type := n.type, id := n.id, properties := props,
        metadata := if n.metadata.isEmpty then none else some n.metadata }

/-! ## Runtime: context sources and the context manager (chord_runtime.py) -/

/-- External collaborators of the runtime, abstracted as function parameters:
the file system, `os.environ`, Python's `re` module on caller-supplied
patterns, `json`, and `Path.glob`/`Path.match`. The repository's own logic
around these calls is modelled faithfully; the collaborators themselves are
stdlib/OS behaviour, not repository code. -/
structure Oracles where
  /-- File contents by path (`open(path).read()`); `none` = missing file. -/
  fs : String → Option String
  /-- `Path(p).is_dir()`. -/
  isDir : String → Bool
  /-- `Path(base).glob(pattern)` restricted to files, as paths relative to
  the base (the source only keeps `file_path.is_file()` entries and stores
  them under `file_path.relative_to(path)`). -/
  glob : String → String → List String
  /-- `Path(p).match(pattern)`. -/
  pathMatch : String → String → Bool
  /-- `os.environ.get(name)`. -/
  envVars : String → Option String
  /-- `re.findall(pattern, data, re.MULTILINE)`. -/
  reFindall : String → String → List String
  /-- `re.search(pattern, line) is not None`. -/
  reSearchLine : String → String → Bool
  /-- `json.loads(s)`; `none` = any parse exception. -/
  jsonParse : String → Option Value
  /-- `json.dumps(v, indent=2)`. -/
  jsonPretty : Value → String
  /-- `json.dumps(v)`. -/
  jsonInline : Value → String

/-- A trivial oracle instantiation (empty file system and environment),
used to instantiate theorems at concrete inputs. -/
def defaultOracles : Oracles where
  fs := fun _ => none
  isDir := fun _ => false
  glob := fun _ _ => []
  pathMatch := fun _ _ => false
  envVars := fun _ => none
  reFindall := fun _ _ => []
  reSearchLine := fun _ _ => false
  jsonParse := fun _ => none
  jsonPretty := fun _ => ""
  jsonInline := fun _ => ""

/-- Strip a leading `fs://` scheme marker (shared by both context sources). -/
def stripFs (uri : String) : String :=
  if strStartsWith uri "fs://" then strDrop 5 uri else uri

/-- `FileContextSource.fetch`: read one file's full text. The `uri` arrives as
the raw property value; a non-string uri raises (AttributeError) in Python. -/
def fileSourceFetch (o : Oracles) (uri : Value) : Except String Value :=
  match uri with
  | .str u =>
      let path := stripFs u
      match o.fs path with
      | some content => .ok (.str content)
      | none => .error ("File not found: " ++ path)
  | _ => .error "AttributeError: startswith"

/-- The include/exclude collection loop of `DirectoryContextSource.fetch`. -/
def dirCollect (o : Oracles) (base : String) (excludes : List Value) :
    List Value → List (String × Value) → Except String (List (String × Value))
  | [], files => .ok files
  | pat :: pats, files =>
      match pat with
      | .str p => do
          let rels := o.glob base p
          let files' := rels.foldl (fun fs rel =>
            let excluded := excludes.any (fun e =>
              match e with
              | .str ep => o.pathMatch (base ++ "/" ++ rel) ep
              | _ => false)
            if excluded then fs
            else match o.fs (base ++ "/" ++ rel) with
              | some content => dictInsert fs rel (.str content)
              | none => fs) files
          dirCollect o base excludes pats files'
      | _ => .error "TypeError: glob"

/-- `DirectoryContextSource.fetch`. -/
def dirSourceFetch (o : Oracles) (uri : Value) (props : List (String × Value)) :
    Except String Value :=
  match uri with
  | .str u =>
      let path := stripFs u
      if o.isDir path then
        let includeV := dictGetD props "include" (.arr [.str "**/*"])
        let excludeV := dictGetD props "exclude" (.arr [])
        match includeV, excludeV with
        | .arr incs, .arr excs => (dirCollect o path excs incs []).map Value.obj
        | _, _ => .error "TypeError: iteration"
      else .error ("Not a directory: " ++ path)
  | _ => .error "AttributeError: startswith"

/-- The built-in `ContextManager.sources` table (`file` and `dir`), keyed by
context-type name. -/
def sourceFetch (o : Oracles) (srcType : String) :
    Option (Value → List (String × Value) → Except String Value) :=
  if srcType = "file" then some (fun uri _ => fileSourceFetch o uri)
  else if srcType = "dir" then some (fun uri props => dirSourceFetch o uri props)
  else none

/-- The runtime content cache (`ContextManager.cache`). -/
abbrev Cache := List (String × Value)

/-- `ContextManager.fetch_context(node)`: the function receives the compiled
node and reads `node['properties']`; the embedding takes those properties
directly. Returns the fetched value together with the updated cache. -/
def fetch_context (o : Oracles) (cache : Cache) (props : List (String × Value)) :
    Except String (Value × Cache) :=
  let ctxType := dictGetD props "type" (.str "file")
  let uriVal := dictGetD props "uri" (.str "")
  let cacheKey := pyStr ctxType ++ ":" ++ pyStr uriVal
  match cache.lookup cacheKey with
  | some cached => .ok (cached, cache)
  | none =>
      match ctxType with
      | .str t =>
          match sourceFetch o t with
          | some fetch =>
              -- `source.fetch(uri, **node['properties'])` passes the whole
              -- properties dict as keyword arguments while `uri` is already
              -- bound positionally, so a `uri` property key makes Python
              -- raise TypeError before the source runs. (A `self` key would
              -- collide the same way; no claim exercises it.)
              if (props.lookup "uri").isSome then
                .error "TypeError: fetch() got multiple values for argument \x27uri\x27"
              else do
                let data ← fetch uriVal props
                .ok (data, dictInsert cache cacheKey data)
          | none => .error ("Unknown context type: " ++ t)
      | other => .error ("Unknown context type: " ++ pyStr other)

/-! ## Runtime: selector operations (chord_runtime.py) -/

/-- `HeadSelector.execute`: first N lines (default 100), newline-joined.
A non-int-like `lines` parameter only raises (TypeError from slicing) when
the data is a string; non-string data is returned unchanged. -/
def headExec (data : Value) (params : List (String × Value)) : Except String Value :=
  let linesV := dictGetD params "lines" (.int 100)
  match data with
  | .str s =>
      match asPyInt linesV with
      | some n => .ok (.str (pyJoin "\n" (pySliceFirst (pySplitlines s) n)))
      | none => .error "TypeError: slice indices"
  | v => .ok v

/-- `TailSelector.execute`: last N lines (default 100) via the slice
`splitlines()[-lines:]`. -/
def tailExec (data : Value) (params : List (String × Value)) : Except String Value :=
  let linesV := dictGetD params "lines" (.int 100)
  match data with
  | .str s =>
      match asPyInt linesV with
      | some n => .ok (.str (pyJoin "\n" (pySliceLast (pySplitlines s) n)))
      | none => .error "TypeError: slice indices"
  | v => .ok v

/-- Short-circuiting `any(s in current_section for s in sections)`; a
non-string element reached before a hit raises TypeError. -/
def anySubstrIn (sec : String) : List Value → Except String Bool
  | [] => .ok false
  | .str t :: rest => if containsSub sec t then .ok true else anySubstrIn sec rest
  | _ :: _ => .error "TypeError: in requires string"

/-- The section-collection loop of `ExtractSelector` (`sections` parameter):
walk the lines, opening a new block at every line starting with `#`, and
keep a finished block when its header contains any requested substring. -/
def extractSections (sections : List Value) :
    List String → Option String → List String → List String → Except String (List String)
  | [], curSec, curCont, extracted => do
      match curSec with
      | some sec => do
          let hit ← anySubstrIn sec sections
          .ok (if hit then extracted ++ [pyJoin "\n" curCont] else extracted)
      | none => .ok extracted
  | line :: rest, curSec, curCont, extracted =>
      if strStartsWith line "#" then do
        let extracted' ←
          match curSec with
          | some sec => do
              let hit ← anySubstrIn sec sections
              pure (if hit then extracted ++ [pyJoin "\n" curCont] else extracted)
          | none => pure extracted
        extractSections sections rest (some line) [line] extracted'
      else extractSections sections rest curSec (curCont ++ [line]) extracted

/-- `ExtractSelector.execute`: `sections`, `pattern` and `lines` parameters
checked in that order; with none of them, the data passes through. -/
def extractExec (o : Oracles) (data : Value) (params : List (String × Value)) :
    Except String Value :=
  if (params.lookup "sections").isSome then
    let sectionsV := (params.lookup "sections").getD .null
    let sections := match sectionsV with
      | .arr xs => xs
      | v => [v]
    match data with
    | .str s => do
        let blocks ← extractSections sections (pySplitlines s) none [] []
        .ok (.str (pyJoin "\n\n" blocks))
    | _ => .error "AttributeError: splitlines"
  else if (params.lookup "pattern").isSome then
    match (params.lookup "pattern").getD .null, data with
    | .str pat, .str s => .ok (.str (pyJoin "\n" (o.reFindall pat s)))
    | _, _ => .error "TypeError: re.findall"
  else if (params.lookup "lines").isSome then
    match data with
    | .str s =>
        let lines := pySplitlines s
        let startV := dictGetD params "start" (.int 0)
        let endV := dictGetD params "end" (.int lines.length)
        match asPyInt startV, asPyInt endV with
        | some a, some b => .ok (.str (pyJoin "\n" (pySlice lines a b)))
        | _, _ => .error "TypeError: slice indices"
    | _ => .error "AttributeError: splitlines"
  else .ok data

/-- The match-collection loop of `GrepSelector`: for each matching line,
emit the `context`-line window around it. The `context` parameter is only
touched (and can only raise) once some line matches. -/
def grepAux (o : Oracles) (pat : String) (ctxV : Value) (allLines : List String) :
    Nat → List String → Except String (List String)
  | _, [] => .ok []
  | i, line :: rest =>
      if o.reSearchLine pat line then
        match asPyInt ctxV with
        | some c => do
            let start := max 0 ((i : Int) - c)
            let stop := min (allLines.length : Int) ((i : Int) + c + 1)
            let seg := pyJoin "\n" (pySlice allLines start stop)
            let rest' ← grepAux o pat ctxV allLines (i + 1) rest
            .ok (seg :: rest')
        | none => .error "TypeError: unsupported operand"
      else grepAux o pat ctxV allLines (i + 1) rest

/-- `GrepSelector.execute`. -/
def grepExec (o : Oracles) (data : Value) (params : List (String × Value)) :
    Except String Value :=
  let patV := dictGetD params "pattern" (.str "")
  let ctxV := dictGetD params "context" (.int 0)
  match data with
  | .str s =>
      match patV with
      | .str pat => do
          let lines := pySplitlines s
          let found ← grepAux o pat ctxV lines 0 lines
          .ok (.str (pyJoin "\n---\n" found))
      | _ => .error "TypeError: re.search"
  | _ => .error "AttributeError: splitlines"

/-- `SummarizeSelector.execute`: truncate to `int(max_tokens * 0.75)` words
(exact in floating point for every realistic `max_tokens`; `int()` truncates
toward zero, as does `Int.tdiv`). -/
def summarizeExec (data : Value) (params : List (String × Value)) :
    Except String Value :=
  let mtV := dictGetD params "max_tokens" (.int 500)
  match data with
  | .str s =>
      match asPyInt mtV with
      | some mt =>
          let words := pySplitWS s
          let maxWords := Int.tdiv (mt * 3) 4
          if (words.length : Int) ≤ maxWords then .ok (.str s)
          else
            let truncated := pyJoin " " (pySliceFirst words maxWords)
            .ok (.str (truncated ++ "... [summarized from " ++
                       toString words.length ++ " words]"))
      | none => .error "TypeError: unsupported operand"
  | _ => .error "AttributeError: split"

/-- The simplified YAML dump of `TransformSelector` for dict data. -/
def transformYamlLines (o : Oracles) : List (String × Value) → List String
  | [] => []
  | (k, v) :: rest =>
      match v with
      | .arr _ => (k ++ ":") :: ("  " ++ o.jsonInline v) :: transformYamlLines o rest
      | .obj _ => (k ++ ":") :: ("  " ++ o.jsonInline v) :: transformYamlLines o rest
      | _ => (k ++ ": " ++ pyStr v) :: transformYamlLines o rest

/-- `TransformSelector.execute`. -/
def transformExec (o : Oracles) (data : Value) (params : List (String × Value)) :
    Except String Value :=
  let toV := dictGetD params "to" (.str "json")
  if toV == Value.str "json" then
    match data with
    | .str s =>
        match o.jsonParse s with
        | some parsed => .ok (.str (o.jsonPretty parsed))
        | none => .ok (.str s)
    | v => .ok (.str (o.jsonPretty v))
  else if toV == Value.str "yaml" then
    match data with
    | .obj kvs => .ok (.str (pyJoin "\n" (transformYamlLines o kvs)))
    | v => .ok (.str (pyStr v))
  else .ok (.str (pyStr data))

/-- Stable insertion for descending sort by score: an element is placed
before the first entry whose score it is `≥`, i.e. after every
strictly-greater score and before every equal one that was inserted later.
Processing the original list head-first makes this exactly Python's stable
`sort(key=score, reverse=True)`. -/
def insertDesc (x : Nat × String) : List (Nat × String) → List (Nat × String)
  | [] => [x]
  | y :: ys => if y.1 ≤ x.1 then x :: y :: ys else y :: insertDesc x ys

def isortDesc : List (Nat × String) → List (Nat × String)
  | [] => []
  | x :: xs => insertDesc x (isortDesc xs)

/-- The lower-cased word set of a line/query (`set(text.lower().split())`). -/
def wordSet (text : String) : List String := (pySplitWS (pyLower text)).eraseDups

/-- `SemanticSearchSelector.execute`: score lines by word-set overlap with
the query, keep positive scores, stable-sort descending, return top-K. -/
def semanticSearchExec (data : Value) (params : List (String × Value)) :
    Except String Value :=
  let queryV := dictGetD params "query" (.str "")
  let topKV := dictGetD params "top_k" (.int 5)
  match data with
  | .str s =>
      match queryV with
      | .str q =>
          let lines := pySplitlines s
          let queryWords := wordSet q
          let scored := lines.filterMap (fun line =>
            let score := ((wordSet line).filter (fun w => queryWords.contains w)).length
            if 0 < score then some (score, line) else none)
          let sorted := isortDesc scored
          match asPyInt topKV with
          | some k => .ok (.str (pyJoin "\n" ((pySliceFirst sorted k).map (·.2))))
          | none => .error "TypeError: slice indices"
      | _ => .error "AttributeError: lower"
  | _ => .error "AttributeError: splitlines"

/-- The `SelectorRegistry` operations table: `registry.get(op)` for the
default registry (`search` is an alias of `semantic_search`). Hashable
non-string keys are simply not found; unhashable keys (lists and dicts)
make `dict.get` raise TypeError. -/
def registryGet (o : Oracles) (opVal : Value) :
    Except String (Option (Value → List (String × Value) → Except String Value)) :=
  match opVal with
  | .str "head" => .ok (some headExec)
  | .str "tail" => .ok (some tailExec)
  | .str "extract" => .ok (some (extractExec o))
  | .str "grep" => .ok (some (grepExec o))
  | .str "summarize" => .ok (some summarizeExec)
  | .str "transform" => .ok (some (transformExec o))
  | .str "semantic_search" => .ok (some semanticSearchExec)
  | .str "search" => .ok (some semanticSearchExec)
  | .arr _ => .error "TypeError: unhashable type: \x27list\x27"
  | .obj _ => .error "TypeError: unhashable type: \x27dict\x27"
  | _ => .ok none

/-! ## Runtime: template rendering (PromptRenderer, chord_runtime.py) -/

/-- A word character for the `\w` class in the signal-placeholder regex
(ASCII; the claims use ASCII signal names). -/
def isWordChar (c : Char) : Bool := c.isAlphanum || c = '_'

/-- The matches of `re.finditer(r'{{signal\.(\w+)}}', s)` in order: the
captured signal names. Matches of this pattern can never overlap (its
matched text contains no inner brace pair), so a one-character scan that
records every match position is exactly the finditer sequence. -/
def scanSignalsAux : List Char → List String
  | [] => []
  | c :: cs =>
      match dropPrefixCh "\x7b\x7bsignal.".data (c :: cs) with
      | some after =>
          let name := after.takeWhile isWordChar
          if !name.isEmpty && "\x7d\x7d".data.isPrefixOf (after.drop name.length) then
            String.mk name :: scanSignalsAux cs
          else scanSignalsAux cs
      | none => scanSignalsAux cs

def scanSignals (s : String) : List String := scanSignalsAux s.data

/-- The shortest-extent search for the `(.+?)` group of the join-filter
regex: find the minimal nonempty run of non-newline characters followed
immediately by the closing `')}}`. -/
def joinSepScan : List Char → Option (List Char)
  | [] => none
  | c :: cs =>
      if c = '\n' then none
      else if "\x27)\x7d\x7d".data.isPrefixOf cs then some [c]
      else match joinSepScan cs with
        | some sep => some (c :: sep)
        | none => none

/-- `re.search(rf"{{{{{key} \| join\('(.+?)'\)}}}}", s)`: scan left to right
for the literal prefix `{{key | join('`, then take the shortest separator
closed by `')}}`; on failure at one position, resume one character later.
Returns the separator (group 1). The key is treated literally; the claims
only use keys without regex metacharacters. -/
def searchJoinAux (P : List Char) : List Char → Option (List Char)
  | [] => none
  | c :: cs =>
      match dropPrefixCh P (c :: cs) with
      | some after =>
          match joinSepScan after with
          | some sep => some sep
          | none => searchJoinAux P cs
      | none => searchJoinAux P cs

def searchJoin (key : String) (s : String) : Option (String × String) :=
  let P := "\x7b\x7b" ++ key ++ " | join(\x27"
  match searchJoinAux P.data s.data with
  | some sep =>
      some (String.mk sep, P ++ String.mk sep ++ "\x27)\x7d\x7d")
  | none => none

/-- One iteration of the variable-substitution loop in
`PromptRenderer.render_template`: the whole branch is guarded by the bare
placeholder `{{key}}` occurring as a substring; list values then check for
`| bulletize` / `| join` anywhere in the current text. -/
def processVar (result : String) (key : String) (value : Value) : String :=
  let placeholder := "\x7b\x7b" ++ key ++ "\x7d\x7d"
  if containsSub result placeholder then
    match value with
    | .arr items =>
        if containsSub result "| bulletize" then
          pyReplace result ("\x7b\x7b" ++ key ++ " | bulletize\x7d\x7d")
            (pyJoin "\n" (items.map (fun item => "• " ++ pyStr item)))
        else if containsSub result "| join" then
          match searchJoin key result with
          | some (sep, full) =>
              pyReplace result full (pyJoin sep (items.map pyStr))
          | none => result
        else pyReplace result placeholder (pyStr (.arr items))
    | v => pyReplace result placeholder (pyStr v)
  else result

/-- `ExecutionContext.get_signal`: the explicit signal map wins, else the
`CHORD_`-prefixed upper-cased environment variable, else undefined. -/
def getSignal (o : Oracles) (signals : List (String × Value)) (name : String) :
    Option Value :=
  match signals.lookup name with
  | some v => some v
  | none => (o.envVars ("CHORD_" ++ pyUpper name)).map Value.str

/-- One iteration of the signal loop of `render_template`: substitute the
placeholder only when the signal value is truthy (`if signal_value:`). -/
def signalStep (o : Oracles) (signals : List (String × Value))
    (result : String) (name : String) : String :=
  match getSignal o signals name with
  | some v =>
      if pyTruthy v then
        pyReplace result ("\x7b\x7bsignal." ++ name ++ "\x7d\x7d") (pyStr v)
      else result
  | none => result

/-- The signal pass of `render_template`: `re.finditer` runs over the text
as it stood after the variable pass, while each replacement applies to the
current text. -/
def applySignals (o : Oracles) (signals : List (String × Value)) (s : String) :
    String :=
  (scanSignals s).foldl (signalStep o signals) s

/-- `PromptRenderer.render_template`. -/
def renderTemplate (o : Oracles) (signals : List (String × Value))
    (template : String) (vars : List (String × Value)) : String :=
  applySignals o signals (vars.foldl (fun r kv => processVar r kv.1 kv.2) template)

/-- `PromptRenderer.render_prompt`: the variable set is the resolved-context
mapping under key `resolved_context` plus all current signals; non-string
section templates are stringified. -/
def renderPrompt (o : Oracles) (signals : List (String × Value))
    (promptCfg : List (String × Value)) (resolvedCtx : List (String × Value)) :
    List (String × Value) :=
  let vars := signals.foldl (fun d kv => dictInsert d kv.1 kv.2)
    [("resolved_context", Value.obj resolvedCtx)]
  promptCfg.map (fun kv =>
    match kv.2 with
    | .str t => (kv.1, Value.str (renderTemplate o signals t vars))
    | v => (kv.1, Value.str (pyStr v)))

/-! ## Runtime: execution engine (Runtime, chord_runtime.py) -/

/-- A compiled IR node as the runtime reads it (`node['type']`,
`node['properties']`; the `id`/`metadata` keys are never read back). -/
structure IRNode where
  type : String
  id : String
  properties : List (String × Value)

/-- The runtime state the execution methods read: the IR tables plus the
execution context's signals and the external-world oracles. The content
cache is threaded explicitly since execution mutates it. -/
structure Env where
  nodes : List (String × IRNode)
  views : List (List (String × Value))
  flows : List (List (String × Value))
  signals : List (String × Value)
  oracles : Oracles

/-- `ref[1:].split('.')[0]`: the root node id of a reference string. -/
def rootOf (ref : String) : String :=
  match splitOnChar '.' (strDrop 1 ref) with
  | [] => ""
  | root :: _ => root

/-- `Runtime.execute_selector`: resolve the `from` source (fetching context
for `ctx` nodes, otherwise using the node's properties, otherwise the
literal string), then apply the named operation; an unknown operation name
returns the data unchanged (after a logged warning). The cache is returned
in all cases because a failure after a successful fetch still leaves the
fetched entry cached. -/
def executeSelector (env : Env) (cache : Cache) (sel : List (String × Value)) :
    Except String Value × Cache :=
  let fromVal := dictGetD sel "from" (.str "")
  let opVal := dictGetD sel "op" (.str "extract")
  let applyOp := fun (data : Value) (cache' : Cache) =>
    match registryGet env.oracles opVal with
    | .ok (some op) => (op data sel, cache')
    | .ok none => (.ok data, cache')
    | .error e => ((.error e : Except String Value), cache')
  match fromVal with
  | .str fromRef =>
      if strStartsWith fromRef "@" then
        match env.nodes.lookup (rootOf fromRef) with
        | some node =>
            if node.type = "ctx" then
              match fetch_context env.oracles cache node.properties with
              | .ok (data, cache') => applyOp data cache'
              | .error e => (.error e, cache)
            else applyOp (.obj node.properties) cache
        | none => (.error ("Unknown node: " ++ fromRef), cache)
      else applyOp (.str fromRef) cache
  | _ => (.error "AttributeError: startswith", cache)

/-- The result key of one selector in `Runtime.resolve_selectors`. -/
def selKey (selV : Value) : String :=
  match selV with
  | .obj sel =>
      match dictGetD sel "from" (.str "") with
      | .str fromRef => if strStartsWith fromRef "@" then rootOf fromRef else "data"
      | _ => ""
  | _ => ""

/-- Wrap one selector's outcome the way `resolve_selectors` stores it: a
raised error becomes the marker string `[Error: ...]` under the same key. -/
def wrapSelectorResult : Except String Value → Value
  | .ok v => v
  | .error e => .str ("[Error: " ++ e ++ "]")

/-- `Runtime.resolve_selectors` with its accumulating `resolved` dict. The
key extraction happens outside the per-selector `try`, so a selector that
is not a dict, or whose `from` value is not a string, aborts the whole
batch; an exception inside `execute_selector` is caught per selector. -/
def resolveSelectorsAux (env : Env) :
    List Value → Cache → List (String × Value) →
    Except String (List (String × Value) × Cache)
  | [], cache, resolved => .ok (resolved, cache)
  | selV :: rest, cache, resolved =>
      match selV with
      | .obj sel =>
          match dictGetD sel "from" (.str "") with
          | .str _ =>
              let key := selKey selV
              let (r, cache') := executeSelector env cache sel
              resolveSelectorsAux env rest cache'
                (dictInsert resolved key (wrapSelectorResult r))
          | _ => .error "AttributeError: startswith"
      | _ => .error "AttributeError: get"

def resolveSelectors (env : Env) (cache : Cache) (sels : List Value) :
    Except String (List (String × Value) × Cache) :=
  resolveSelectorsAux env sels cache []

/-- The two find-by-id loops of `execute_view`/`execute_flow`: scan the
record list for the first dict whose `id` entry equals the requested id
(reading `record['id']` raises KeyError when the key is missing). -/
def findByIdKey : List (List (String × Value)) → Value →
    Except String (Option (List (String × Value)))
  | [], _ => .ok none
  | rec_ :: rest, wanted =>
      match rec_.lookup "id" with
      | none => .error "KeyError: id"
      | some idV => if idV == wanted then .ok (some rec_) else findByIdKey rest wanted

/-- The role/model resolution of `execute_view`: a truthy reference value
starting with `@` is looked up (whole remainder, no path split) among the
nodes; a miss silently yields no properties. -/
def resolveRefNodeProps (env : Env) (refV : Value) :
    Except String (Option (List (String × Value))) :=
  if pyTruthy refV then
    match refV with
    | .str s =>
        if strStartsWith s "@" then
          match env.nodes.lookup (strDrop 1 s) with
          | some node => .ok (some node.properties)
          | none => .ok none
        else .ok none
    | _ => .error "AttributeError: startswith"
  else .ok none

/-- `Runtime.execute_view`. -/
def executeView (env : Env) (cache : Cache) (viewId : Value) :
    Except String (Value × Cache) := do
  match (← findByIdKey env.views viewId) with
  | none => .error ("View not found: " ++ pyStr viewId)
  | some view =>
      match dictGetD view "selectors" (.arr []) with
      | .arr sels => do
          let (resolvedCtx, cache') ← resolveSelectors env cache sels
          let role ← resolveRefNodeProps env (dictGetD view "role" (.str ""))
          let model ← resolveRefNodeProps env (dictGetD view "model" (.str ""))
          match dictGetD view "prompt" (.obj []) with
          | .obj promptCfg =>
              let rendered := renderPrompt env.oracles env.signals promptCfg resolvedCtx
              .ok (.obj [
                ("view_id", viewId),
                ("task", dictGetD view "task" .null),
                ("role", match role with | some p => .obj p | none => .null),
                ("model", match model with | some p => .obj p | none => .null),
                ("resolved_context", .obj resolvedCtx),
                ("prompt", .obj rendered),
                ("response_format", dictGetD view "response_format" .null),
                ("asserts", dictGetD view "asserts" (.arr []))], cache')
          | _ => .error "AttributeError: items"
      | _ => .error "TypeError: not iterable"

/-- The view-collection loop of `execute_task`: ids of the views whose
`task` entry equals `@taskId` (a matching view without an `id` key raises). -/
def matchingViewIds (taskId : String) :
    List (List (String × Value)) → Except String (List Value)
  | [] => .ok []
  | view :: rest =>
      if dictGetD view "task" .null == Value.str ("@" ++ taskId) then
        match view.lookup "id" with
        | none => .error "KeyError: id"
        | some idV => do
            let more ← matchingViewIds taskId rest
            .ok (idV :: more)
      else matchingViewIds taskId rest

/-- `Runtime.execute_task`: resolve the task node, find its views in
declaration order, and execute only the first one (or report `no_views`). -/
def executeTask (env : Env) (cache : Cache) (taskId : String) :
    Except String (Value × Cache) := do
  match env.nodes.lookup taskId with
  | none => .error ("Task not found: " ++ taskId)
  | some task =>
      if task.type ≠ "task" then .error ("Node " ++ taskId ++ " is not a task")
      else do
        match (← matchingViewIds taskId env.views) with
        | [] => .ok (.obj [("task_id", .str taskId), ("status", .str "no_views")], cache)
        | viewId :: _ => do
            let (viewResult, cache') ← executeView env cache viewId
            .ok (.obj [("task_id", .str taskId),
                       ("task", .obj task.properties),
                       ("view_result", viewResult)], cache')

/-- The edge loop of `Runtime.execute_flow`: the `from` entry is read but
never used; a truthy string `to` entry starting with `@` triggers one task
execution, anything falsy is skipped, a truthy non-string raises. -/
def execEdges (env : Env) :
    List Value → Cache → List Value → Except String (List Value × Cache)
  | [], cache, results => .ok (results, cache)
  | edgeV :: rest, cache, results =>
      match edgeV with
      | .obj edge =>
          let _fromVal := dictGetD edge "from" (.str "")
          let toVal := dictGetD edge "to" (.str "")
          if pyTruthy toVal then
            match toVal with
            | .str toRef =>
                if strStartsWith toRef "@" then do
                  let (r, cache') ← executeTask env cache (rootOf toRef)
                  execEdges env rest cache' (results ++ [r])
                else execEdges env rest cache results
            | _ => .error "AttributeError: startswith"
          else execEdges env rest cache results
      | _ => .error "AttributeError: get"

/-- The `if 'entry' in flow` block of `execute_flow`: execute the entry
task when the flow declares a reference entry, producing the initial
results list. -/
def flowEntryResults (env : Env) (cache : Cache) (flow : List (String × Value)) :
    Except String (List Value × Cache) :=
  match flow.lookup "entry" with
  | some entryV =>
      match entryV with
      | .str entry =>
          if strStartsWith entry "@" then do
            let (r, cache') ← executeTask env cache (rootOf entry)
            .ok ([r], cache')
          else .ok ([], cache)
      | _ => .error "AttributeError: startswith"
  | none => .ok ([], cache)

/-- The body of `execute_flow` once the flow record is located. -/
def executeFlowBody (env : Env) (cache : Cache) (flowId : Value)
    (flow : List (String × Value)) : Except String (Value × Cache) := do
  let (results, cache') ← flowEntryResults env cache flow
  match dictGetD flow "edges" (.arr []) with
  | .arr edges => do
      let (results', cache'') ← execEdges env edges cache' results
      .ok (.obj [("flow_id", flowId), ("results", .arr results')], cache'')
  | _ => .error "TypeError: not iterable"

/-- `Runtime.execute_flow`: locate the flow, execute the entry task if the
flow declares a reference entry, then execute every edge's `to` task. -/
def executeFlow (env : Env) (cache : Cache) (flowId : Value) :
    Except String (Value × Cache) := do
  match (← findByIdKey env.flows flowId) with
  | none => .error ("Flow not found: " ++ pyStr flowId)
  | some flow => executeFlowBody env cache flowId flow

/-! ## Lexer: multi-line strings (Lexer.read_multiline_string, chord_compiler.py) -/

/-- Advance to the next newline (the loop skipping the rest of the `|`
line). The lexer position is modelled as the remaining source suffix; the
line/column counters are diagnostic only and never influence token values
or the final position. -/
def skipToNewlineS : List Char → List Char
  | [] => []
  | c :: cs => if c = '\n' then c :: cs else skipToNewlineS cs

/-- The indentation-counting loops (`while current_char in ' \t'`): count
and consume every leading space/tab. -/
def countIndentS : List Char → Nat × List Char
  | [] => (0, [])
  | c :: cs =>
      if c = ' ' ∨ c = '\t' then
        let (i, rest) := countIndentS cs
        (i + 1, rest)
  else (0, c :: cs)

mutual

/-- The main body loop of `read_multiline_string`, in content state:
accumulate the current line until a newline, then switch to indentation
counting. At end of input a nonempty partial line is kept. -/
def mlContent : List Char → Nat → List Char → List String → List String × List Char
  | [], _, curLine, lines =>
      ((if curLine.isEmpty then lines else lines ++ [String.mk curLine]), [])
  | c :: cs, base, curLine, lines =>
      if c = '\n' then mlIndent cs base 0 cs (lines ++ [String.mk curLine])
      else mlContent cs base (curLine ++ [c]) lines

/-- The same loop in indentation-counting state after a newline (`start_pos`
is the suffix right after that newline, kept as `lineStart`): consume every
leading space/tab, then either terminate — strictly less indented, nonempty,
not a blank line — rewinding the position to the line start, or continue
with an emptied current line. -/
def mlIndent : List Char → Nat → Nat → List Char → List String → List String × List Char
  | [], _, _, _, lines => (lines, [])
  | c :: cs, base, i, lineStart, lines =>
      if c = ' ' ∨ c = '\t' then mlIndent cs base (i + 1) lineStart lines
      else if i < base ∧ c ≠ '\n' then (lines, lineStart)
      else if c = '\n' then mlIndent cs base 0 cs (lines ++ [String.mk []])
      else mlContent cs base [c] lines

end

/-- `Lexer.read_multiline_string`, taking the source suffix that starts at
the introducing `|`: skip the rest of that line and its newline, take the
first body line's leading whitespace as `base_indent`, run the body loop,
and join the collected lines. Returns the token value and the final lexer
position (as the remaining suffix). -/
def readMultilineString (src : List Char) : String × List Char :=
  let afterBar := skipToNewlineS (src.drop 1)
  let bodyStart := match afterBar with
    | '\n' :: cs => cs
    | s => s
  let (base, s3) := countIndentS bodyStart
  let (lines, rest) := mlContent s3 base [] []
  (pyJoin "\n" lines, rest)


/-! ## Claims -/

/-- C1: reference resolution is soft-fail on partial path misses: in every
graph whose node `node` has properties `a: (b: "x")`, compiling the
property value `@node.a.b` yields `"x"`, while compiling `@node.a.z` (last
segment missing) yields the original literal string `@node.a.z` unchanged,
with no error raised. -/
theorem chord_C1_soft_fail_resolution (g : Graph) (n : GNode)
    (hn : g.nodes.lookup "node" = some n)
    (hp : n.properties = [("a", Value.obj [("b", Value.str "x")])]) :
    compileValue g (Value.str "@node.a.b") = .ok (Value.str "x") ∧
    compileValue g (Value.str "@node.a.z") = .ok (Value.str "@node.a.z") := by
  have kb : resolveReference g "@node.a.b" =
      (match g.nodes.lookup "node" with
       | none => .error "Unknown reference: @node.a.b"
       | some node => .ok (navigate "node.a.b" (Value.obj node.properties) ["a", "b"])) :=
    rfl
  have kz : resolveReference g "@node.a.z" =
      (match g.nodes.lookup "node" with
       | none => .error "Unknown reference: @node.a.z"
       | some node => .ok (navigate "node.a.z" (Value.obj node.properties) ["a", "z"])) :=
    rfl
  constructor
  · simp only [compileValue, show strStartsWith "@node.a.b" "@" = true from by decide,
      if_true, kb, hn, hp]
    rfl
  · simp only [compileValue, show strStartsWith "@node.a.z" "@" = true from by decide,
      if_true, kz, hn, hp]
    rfl

/-- Witness for C1 at a concrete one-node graph. -/
theorem chord_C1_witness :
    compileValue ⟨[("node", ⟨"ctx", "node", [("a", Value.obj [("b", Value.str "x")])], []⟩)]⟩
      (Value.str "@node.a.b") = .ok (Value.str "x") ∧
    compileValue ⟨[("node", ⟨"ctx", "node", [("a", Value.obj [("b", Value.str "x")])], []⟩)]⟩
      (Value.str "@node.a.z") = .ok (Value.str "@node.a.z") :=
  chord_C1_soft_fail_resolution _ _ rfl rfl

/-- A value wrapped in single-entry mappings along a key path (used to state
how deep into nested mappings compilation recurses). -/
def nestObj : List String → Value → Value
  | [], v => v
  | k :: ks, v => .obj [(k, nestObj ks v)]

/-- C5 counterexample: in the graph with the single node `n` whose
properties are `a: (b: "x")` and `arr: [(r: "@n.a.b")]`, compiling the node
leaves the reference string `@n.a.b` inside the mapping nested in the array
unchanged, although the same reference resolves to `"x"` — so resolution is
not applied to strings inside a mapping nested inside an array. -/
theorem chord_C5_counterexample :
    compile_node
      ⟨[("n", ⟨"ctx", "n",
        [("a", Value.obj [("b", Value.str "x")]),
         ("arr", Value.arr [Value.obj [("r", Value.str "@n.a.b")]])], []⟩)]⟩
      ⟨"ctx", "n",
        [("a", Value.obj [("b", Value.str "x")]),
         ("arr", Value.arr [Value.obj [("r", Value.str "@n.a.b")]])], []⟩
      = .ok ⟨"ctx", "n",
        [("a", Value.obj [("b", Value.str "x")]),
         ("arr", Value.arr [Value.obj [("r", Value.str "@n.a.b")]])], none⟩ ∧
    resolveReference
      ⟨[("n", ⟨"ctx", "n",
        [("a", Value.obj [("b", Value.str "x")]),
         ("arr", Value.arr [Value.obj [("r", Value.str "@n.a.b")]])], []⟩)]⟩
      "@n.a.b" = .ok (Value.str "x") ∧
    Value.str "@n.a.b" ≠ Value.str "x" := by
  refine ⟨rfl, rfl, ?_⟩
  intro h
  simp only [Value.str.injEq] at h
  exact absurd h (by decide)

/-- C5 amended: reference resolution is applied to direct string property
values, to string elements of arrays, and recursively through nested
mappings at any depth; but non-string elements of arrays — including a
mapping or array nested inside an array — are passed through unchanged, so
references inside them are not resolved. -/
theorem chord_C5_amended (g : Graph) (ks : List String) (v : Value)
    (kvs : List (String × Value)) (ys : List Value) :
    compileValue g (nestObj ks v) = (compileValue g v).map (nestObj ks) ∧
    compileArrayElem g (Value.obj kvs) = .ok (Value.obj kvs) ∧
    compileArrayElem g (Value.arr ys) = .ok (Value.arr ys) ∧
    compileValue g (Value.arr ys) = (compileArrayElems g ys).map Value.arr := by
  refine ⟨?_, rfl, rfl, rfl⟩
  induction ks with
  | nil =>
      cases h : compileValue g v <;> simp [nestObj, Except.map, h]
  | cons k ks ih =>
      simp only [nestObj, compileValue, compileObject, ih]
      cases h : compileValue g v <;> simp [Except.map, bind, Except.bind, nestObj]

/-- C2 (code bug): for a ctx node whose properties give context-type
`file` and a `uri` property naming an existing readable file, the claim
(and the spec) say `fetch_context` on a cache miss dispatches to the
built-in file source and returns the file's full text. The code instead
calls `source.fetch(uri, **node['properties'])`, binding `uri` both
positionally and through the `uri` property key, so Python raises
`TypeError: fetch() got multiple values for argument 'uri'` before the
source runs. Evaluated here at a concrete failing input: the file exists
and `FileContextSource.fetch` alone would return its text, yet
`fetch_context` raises the TypeError and never returns the content. -/
theorem chord_C2_kwargs_type_error :
    fetch_context
      { defaultOracles with fs := fun p => if p = "x.txt" then some "hello" else none }
      [] [("type", Value.str "file"), ("uri", Value.str "fs://x.txt")] =
      .error "TypeError: fetch() got multiple values for argument \x27uri\x27" ∧
    fileSourceFetch
      { defaultOracles with fs := fun p => if p = "x.txt" then some "hello" else none }
      (Value.str "fs://x.txt") = .ok (Value.str "hello") :=
  ⟨rfl, rfl⟩

/-- C10: the `tail` selector with `lines = 0` returns the entire input (all
its lines, newline-joined) rather than the empty string, because
`splitlines()[-0:]` is the whole line list; `lines = n ≥ 1` yields the
last-`n`-lines suffix. -/
theorem chord_C10_tail_zero (s : String) :
    (∀ params, dictGetD params "lines" (.int 100) = Value.int 0 →
       tailExec (Value.str s) params =
         .ok (Value.str (pyJoin "\n" (pySplitlines s)))) ∧
    (∀ params (n : Int), 1 ≤ n → dictGetD params "lines" (.int 100) = Value.int n →
       tailExec (Value.str s) params =
         .ok (Value.str (pyJoin "\n"
           ((pySplitlines s).drop ((pySplitlines s).length - n.toNat))))) := by
  constructor
  · intro params h
    simp only [tailExec, h, asPyInt]
    norm_num [pySliceLast]
  · intro params n hn h
    simp only [tailExec, h, asPyInt]
    have hpos : (0 : Int) < n := lt_of_lt_of_le zero_lt_one hn
    simp [pySliceLast, hpos]

/-- Witness for C10 on a three-line input. -/
theorem chord_C10_witness :
    tailExec (Value.str "a\nb\nc") [("lines", Value.int 0)] =
      .ok (Value.str "a\nb\nc") ∧
    tailExec (Value.str "a\nb\nc") [("lines", Value.int 2)] =
      .ok (Value.str "b\nc") := by
  constructor
  · rw [(chord_C10_tail_zero "a\nb\nc").1 [("lines", Value.int 0)] rfl]
    rfl
  · rw [(chord_C10_tail_zero "a\nb\nc").2 [("lines", Value.int 2)] 2 (by norm_num) rfl]
    rfl

/-- Auxiliary: `insertDesc` inserts its element somewhere in the list. -/
theorem insertDesc_perm (x : Nat × String) (l : List (Nat × String)) :
    List.Perm (insertDesc x l) (x :: l) := by
  induction l with
  | nil => rfl
  | cons y ys ih =>
      by_cases h : y.1 ≤ x.1
      · simp [insertDesc, h]
      · simp only [insertDesc, h, if_false]
        exact (ih.cons y).trans (List.Perm.swap x y ys)

/-- Auxiliary: the stable sort of `SemanticSearchSelector` permutes its
input. -/
theorem isortDesc_perm (l : List (Nat × String)) : List.Perm (isortDesc l) l := by
  induction l with
  | nil => rfl
  | cons x xs ih => exact (insertDesc_perm x (isortDesc xs)).trans (ih.cons x)

/-- Auxiliary: inserting into a descending-sorted list keeps it sorted. -/
theorem insertDesc_sorted (x : Nat × String) (l : List (Nat × String))
    (h : l.Pairwise (fun a b => b.1 ≤ a.1)) :
    (insertDesc x l).Pairwise (fun a b => b.1 ≤ a.1) := by
  induction l with
  | nil => simp [insertDesc]
  | cons y ys ih =>
      rw [List.pairwise_cons] at h
      by_cases hc : y.1 ≤ x.1
      · simp only [insertDesc, hc, if_true]
        refine List.Pairwise.cons ?_ (List.Pairwise.cons h.1 h.2)
        intro z hz
        rcases List.mem_cons.mp hz with hz | hz
        · subst hz
          exact hc
        · exact le_trans (h.1 z hz) hc
      · simp only [insertDesc, hc, if_false]
        refine List.Pairwise.cons ?_ (ih h.2)
        intro z hz
        rcases List.mem_cons.mp ((insertDesc_perm x ys).mem_iff.mp hz) with hz' | hz'
        · subst hz'
          exact le_of_lt (lt_of_not_le hc)
        · exact h.1 z hz'

/-- Auxiliary: the sort output is descending in the scores. -/
theorem isortDesc_sorted (l : List (Nat × String)) :
    (isortDesc l).Pairwise (fun a b => b.1 ≤ a.1) := by
  induction l with
  | nil => simp [isortDesc]
  | cons x xs ih => exact insertDesc_sorted x (isortDesc xs) ih

/-- Auxiliary: `insertDesc` places its element before exactly the
strictly-smaller scores, so each equal-score class keeps its order. -/
theorem insertDesc_filter (x : Nat × String) (l : List (Nat × String)) (k : Nat) :
    (insertDesc x l).filter (fun p => p.1 = k) =
      if x.1 = k then x :: l.filter (fun p => p.1 = k)
      else l.filter (fun p => p.1 = k) := by
  induction l with
  | nil => by_cases h : x.1 = k <;> simp [insertDesc, List.filter, h]
  | cons y ys ih =>
      by_cases hc : y.1 ≤ x.1
      · simp only [insertDesc, hc, if_true]
        by_cases hx : x.1 = k <;> by_cases hy : y.1 = k <;>
          simp [List.filter, hx, hy]
      · simp only [insertDesc, hc, if_false]
        by_cases hx : x.1 = k
        · have hy : ¬ (y.1 = k) := by
            intro hy
            exact hc (le_of_eq (hy.trans hx.symm))
          simp [List.filter, hy, ih, hx]
        · simp [List.filter, ih, hx]

/-- Auxiliary: stability of the sort — for every score, the elements of
that score appear in the output exactly in their input order. -/
theorem isortDesc_stable (l : List (Nat × String)) (k : Nat) :
    (isortDesc l).filter (fun p => p.1 = k) = l.filter (fun p => p.1 = k) := by
  induction l with
  | nil => rfl
  | cons x xs ih =>
      rw [show isortDesc (x :: xs) = insertDesc x (isortDesc xs) from rfl,
        insertDesc_filter]
      by_cases hx : x.1 = k <;> simp [List.filter, hx, ih]

/-- C9: `semantic_search` scores each line by the overlap of its lower-cased
word set with the query's, keeps positive scores, and returns the top-K
(default 5) in descending score order with ties in original order: for
query "a b" over lines "a c", "b c", "a b c" the output ranks "a b c"
first, then "a c", then "b c"; and the sort it uses permutes the scored
lines into descending score order preserving each score class's order. -/
theorem chord_C9_semantic_search :
    semanticSearchExec (Value.str "a c\nb c\na b c") [("query", Value.str "a b")] =
      .ok (Value.str "a b c\na c\nb c") ∧
    (∀ l : List (Nat × String), List.Perm (isortDesc l) l) ∧
    (∀ l : List (Nat × String), (isortDesc l).Pairwise (fun a b => b.1 ≤ a.1)) ∧
    (∀ (l : List (Nat × String)) (k : Nat),
       (isortDesc l).filter (fun p => p.1 = k) = l.filter (fun p => p.1 = k)) :=
  ⟨rfl, isortDesc_perm, isortDesc_sorted, isortDesc_stable⟩

/-- C3 counterexample: a template containing only the filter form
`(|(|items | bulletize|)|)` (braces shown as bars) with `items` bound to a
one-element sequence renders completely unchanged — the code only enters
the filter branches when the bare placeholder `(|(|items|)|)` also occurs —
so the occurrence is not replaced by the bullet line `• a`. -/
theorem chord_C3_counterexample :
    renderTemplate defaultOracles [] "\x7b\x7bitems | bulletize\x7d\x7d"
      [("items", Value.arr [Value.str "a"])] = "\x7b\x7bitems | bulletize\x7d\x7d" ∧
    "\x7b\x7bitems | bulletize\x7d\x7d" ≠ "• a" :=
  ⟨rfl, by decide⟩

/-- C3 amended: the variable pass substitutes nothing for `name` unless the
bare placeholder occurs as a substring of the template; when it does and
the value is a sequence, a `| bulletize` substring anywhere selects the
bulletize branch (replacing the `name | bulletize` filter occurrences with
one `• item` line per element), else a `| join` substring selects the join
branch (replacing the first regex match's text with the elements joined by
the separator captured between the quotes). Rendering a template whose
variable set binds only `name` is this pass followed by the signal pass,
and when the pass result contains no signal placeholders the rendering
equals the pass result itself. -/
theorem chord_C3_amended (t name : String) (items : List Value) (v : Value) :
    (containsSub t ("\x7b\x7b" ++ name ++ "\x7d\x7d") = false →
       processVar t name v = t) ∧
    (containsSub t ("\x7b\x7b" ++ name ++ "\x7d\x7d") = true →
     containsSub t "| bulletize" = true →
       processVar t name (Value.arr items) =
         pyReplace t ("\x7b\x7b" ++ name ++ " | bulletize\x7d\x7d")
           (pyJoin "\n" (items.map (fun item => "• " ++ pyStr item)))) ∧
    (containsSub t ("\x7b\x7b" ++ name ++ "\x7d\x7d") = true →
     containsSub t "| bulletize" = false →
     containsSub t "| join" = true →
       processVar t name (Value.arr items) =
         (match searchJoin name t with
          | some (sep, full) => pyReplace t full (pyJoin sep (items.map pyStr))
          | none => t)) ∧
    (∀ (o : Oracles) (signals : List (String × Value)),
       renderTemplate o signals t [(name, v)] =
         applySignals o signals (processVar t name v)) ∧
    (∀ (o : Oracles) (signals : List (String × Value)),
       scanSignals (processVar t name v) = [] →
         renderTemplate o signals t [(name, v)] = processVar t name v) := by
  refine ⟨?_, ?_, ?_, ?_, ?_⟩
  · intro h1
    simp [processVar, h1]
  · intro h1 h2
    simp [processVar, h1, h2]
  · intro h1 h2 h3
    simp [processVar, h1, h2, h3]
  · intro o signals
    rfl
  · intro o signals hscan
    show applySignals o signals (processVar t name v) = _
    rw [applySignals, hscan]
    rfl

/-- Witness for C3 amended: with both the bare placeholder and the filter
form present, the filter occurrence is bulletized and the bare placeholder
survives the pass, at the single variable pass and through the full
rendering. -/
theorem chord_C3_amended_witness :
    processVar "\x7b\x7bitems\x7d\x7d\n\x7b\x7bitems | bulletize\x7d\x7d" "items"
      (Value.arr [Value.str "a", Value.str "b"]) =
      "\x7b\x7bitems\x7d\x7d\n• a\n• b" ∧
    renderTemplate defaultOracles []
      "\x7b\x7bitems\x7d\x7d\n\x7b\x7bitems | bulletize\x7d\x7d"
      [("items", Value.arr [Value.str "a", Value.str "b"])] =
      "\x7b\x7bitems\x7d\x7d\n• a\n• b" := by
  have hbul := (chord_C3_amended
    "\x7b\x7bitems\x7d\x7d\n\x7b\x7bitems | bulletize\x7d\x7d" "items"
    [Value.str "a", Value.str "b"]
    (Value.arr [Value.str "a", Value.str "b"])).2.1 rfl rfl
  have hrender := (chord_C3_amended
    "\x7b\x7bitems\x7d\x7d\n\x7b\x7bitems | bulletize\x7d\x7d" "items"
    [Value.str "a", Value.str "b"]
    (Value.arr [Value.str "a", Value.str "b"])).2.2.2.2 defaultOracles []
    (by rw [hbul]; rfl)
  constructor
  · rw [hbul]
    rfl
  · rw [hrender, hbul]
    rfl

/-- C8 counterexample: a signal explicitly set to the empty string is set,
yet its placeholder is left untouched — the code substitutes only under
`if signal_value:` — where the claim requires substitution of the value's
string form (here `""`) for every set signal. -/
theorem chord_C8_counterexample :
    renderTemplate defaultOracles [("x", Value.str "")] "\x7b\x7bsignal.x\x7d\x7d" [] =
      "\x7b\x7bsignal.x\x7d\x7d" ∧
    "\x7b\x7bsignal.x\x7d\x7d" ≠ "" :=
  ⟨rfl, by decide⟩

/-- C8 amended: after the variable pass, each `signal.<name>` placeholder
occurrence found by the scan is replaced by the string form of the signal's
value only when the signal resolves (signal map first, else the
`CHORD_`-prefixed upper-cased environment variable) to a truthy value;
placeholders whose signal is unset or resolves to a falsy value (empty
string, 0, false, null, empty sequence or mapping) are left untouched. -/
theorem chord_C8_amended (o : Oracles) (signals : List (String × Value))
    (r name : String) (v : Value) :
    (getSignal o signals name = some v → pyTruthy v = true →
       signalStep o signals r name =
         pyReplace r ("\x7b\x7bsignal." ++ name ++ "\x7d\x7d") (pyStr v)) ∧
    (getSignal o signals name = some v → pyTruthy v = false →
       signalStep o signals r name = r) ∧
    (getSignal o signals name = none → signalStep o signals r name = r) ∧
    (signals.lookup name = none →
       getSignal o signals name =
         (o.envVars ("CHORD_" ++ pyUpper name)).map Value.str) ∧
    (∀ t, renderTemplate o signals t [] =
            (scanSignals t).foldl (signalStep o signals) t) := by
  refine ⟨?_, ?_, ?_, ?_, ?_⟩
  · intro h1 h2
    simp [signalStep, h1, h2]
  · intro h1 h2
    simp [signalStep, h1, h2]
  · intro h1
    simp [signalStep, h1]
  · intro h1
    simp [getSignal, h1]
  · intro t
    rfl

/-- Witness for C8 amended: a signal resolved through the environment
fallback to a truthy value is substituted. -/
theorem chord_C8_amended_witness :
    signalStep
      { defaultOracles with
        envVars := fun n => if n = "CHORD_X" then some "v1" else none }
      [] "\x7b\x7bsignal.x\x7d\x7d" "x" = "v1" := by
  rw [(chord_C8_amended
    { defaultOracles with
      envVars := fun n => if n = "CHORD_X" then some "v1" else none }
    [] "\x7b\x7bsignal.x\x7d\x7d" "x" (Value.str "v1")).1 rfl rfl]
  rfl

/-- Auxiliary: one-step unfolding of association-list lookup. -/
theorem lookup_cons_pair (k : String) (p : String × Value) (rest : List (String × Value)) :
    List.lookup k (p :: rest) = if k = p.1 then some p.2 else List.lookup k rest := by
  obtain ⟨a, b⟩ := p
  by_cases h : k = a
  · simp [List.lookup, h]
  · have hb : (k == a) = false := beq_eq_false_iff_ne.mpr h
    simp [List.lookup, hb, h]

/-- Auxiliary: lookup after the overwrite-in-place branch of `dictInsert`. -/
theorem lookup_map_replace (d : List (String × Value)) (k : String) (v : Value) :
    List.lookup k (d.map (fun p => if p.1 = k then (k, v) else p)) =
      if (List.lookup k d).isSome then some v else none := by
  induction d with
  | nil => simp
  | cons p rest ih =>
      simp only [List.map_cons]
      by_cases hp : p.1 = k
      · rw [if_pos hp, lookup_cons_pair, lookup_cons_pair, if_pos rfl, if_pos hp.symm]
        simp
      · have hne : ¬ k = p.1 := fun hh => hp hh.symm
        rw [if_neg hp, lookup_cons_pair, lookup_cons_pair, if_neg hne, if_neg hne]
        exact ih

/-- Auxiliary: the overwrite branch for another key preserves a lookup. -/
theorem lookup_map_replace_ne (d : List (String × Value)) (k k' : String) (v : Value)
    (h : k ≠ k') :
    List.lookup k (d.map (fun p => if p.1 = k' then (k', v) else p)) =
      List.lookup k d := by
  induction d with
  | nil => simp
  | cons p rest ih =>
      simp only [List.map_cons]
      rw [lookup_cons_pair k p rest]
      by_cases hp : p.1 = k'
      · rw [if_pos hp, lookup_cons_pair]
        have hk : ¬ k = k' := h
        have hk1 : ¬ k = p.1 := fun hh => hk (hh.trans hp)
        simp [hk, hk1, ih]
      · rw [if_neg hp, lookup_cons_pair]
        by_cases hkp : k = p.1 <;> simp [hkp, ih]

/-- Auxiliary: appending a fresh key binds it. -/
theorem lookup_append_miss (d : List (String × Value)) (k : String) (v : Value)
    (h : List.lookup k d = none) :
    List.lookup k (d ++ [(k, v)]) = some v := by
  induction d with
  | nil => simp [List.lookup]
  | cons p rest ih =>
      rw [lookup_cons_pair] at h
      by_cases hkp : k = p.1
      · rw [if_pos hkp] at h
        cases h
      · rw [if_neg hkp] at h
        rw [List.cons_append, lookup_cons_pair, if_neg hkp]
        exact ih h

/-- Auxiliary: appending another key preserves a lookup. -/
theorem lookup_append_ne (d : List (String × Value)) (k k' : String) (v : Value)
    (h : k ≠ k') :
    List.lookup k (d ++ [(k', v)]) = List.lookup k d := by
  induction d with
  | nil =>
      have hb : (k == k') = false := beq_eq_false_iff_ne.mpr h
      simp [List.lookup, hb]
  | cons p rest ih =>
      rw [List.cons_append, lookup_cons_pair, lookup_cons_pair]
      by_cases hkp : k = p.1 <;> simp [hkp, ih]

/-- Auxiliary: looking up the just-inserted key. -/
theorem lookup_dictInsert_self (d : List (String × Value)) (k : String) (v : Value) :
    (dictInsert d k v).lookup k = some v := by
  unfold dictInsert
  split
  · rename_i hs
    rw [lookup_map_replace]
    simp [hs]
  · rename_i hs
    exact lookup_append_miss d k v (Option.not_isSome_iff_eq_none.mp hs)

/-- Auxiliary: inserting under a different key preserves a lookup. -/
theorem lookup_dictInsert_ne (d : List (String × Value)) (k k' : String) (v : Value)
    (h : k ≠ k') : (dictInsert d k' v).lookup k = d.lookup k := by
  unfold dictInsert
  split
  · exact lookup_map_replace_ne d k k' v h
  · exact lookup_append_ne d k k' v h

/-- A well-formed selector spec: a dict whose `from` value (default `""`)
is a string — exactly the shape on which `resolve_selectors` cannot raise
outside the per-selector try block. -/
def isWFSel : Value → Bool
  | .obj sel =>
      match dictGetD sel "from" (.str "") with
      | .str _ => true
      | _ => false
  | _ => false

/-- The cache left behind by one selector's execution. -/
def selStepCache (env : Env) (cache : Cache) (selV : Value) : Cache :=
  match selV with
  | .obj sel => (executeSelector env cache sel).2
  | _ => cache

/-- The cache left behind by a prefix of the batch. -/
def cacheAfterSels (env : Env) (cache : Cache) (sels : List Value) : Cache :=
  sels.foldl (selStepCache env) cache

/-- The value stored for one selector: its own execution's result, or the
error-marker string if that execution raised. -/
def selOutcome (env : Env) (cache : Cache) (selV : Value) : Value :=
  match selV with
  | .obj sel => wrapSelectorResult (executeSelector env cache sel).1
  | _ => .null

/-- The per-selector (key, stored value) pairs of a batch, each selector
executed against the cache produced by its predecessors. -/
def selResultsList (env : Env) : List Value → Cache → List (String × Value)
  | [], _ => []
  | selV :: rest, cache =>
      (selKey selV, selOutcome env cache selV) ::
        selResultsList env rest (selStepCache env cache selV)

/-- Auxiliary: the result keys of a batch are the selectors' keys. -/
theorem selResultsList_keys (env : Env) :
    ∀ (sels : List Value) (cache : Cache),
      (selResultsList env sels cache).map Prod.fst = sels.map selKey := by
  intro sels
  induction sels with
  | nil => intro cache; rfl
  | cons selV rest ih =>
      intro cache
      simp only [selResultsList, List.map_cons, ih]

/-- Auxiliary: on a batch of well-formed selectors, `resolve_selectors`
never raises: it returns the per-selector results folded into the result
dict and the threaded cache. -/
theorem resolveSelectorsAux_run (env : Env) :
    ∀ (sels : List Value) (cache : Cache) (resolved : List (String × Value)),
      (∀ s ∈ sels, isWFSel s = true) →
      resolveSelectorsAux env sels cache resolved =
        .ok ((selResultsList env sels cache).foldl
               (fun d kv => dictInsert d kv.1 kv.2) resolved,
             cacheAfterSels env cache sels) := by
  intro sels
  induction sels with
  | nil => intro cache resolved _; rfl
  | cons selV rest ih =>
      intro cache resolved hwf
      have h0 := hwf selV (List.mem_cons_self selV rest)
      match selV with
      | .str _ | .int _ | .bool _ | .null | .arr _ => simp [isWFSel] at h0
      | .obj sel =>
          match hfrom : dictGetD sel "from" (.str "") with
          | .int _ | .bool _ | .null | .arr _ | .obj _ =>
              simp [isWFSel, hfrom] at h0
          | .str s =>
              show (match dictGetD sel "from" (.str "") with
                    | .str _ =>
                        resolveSelectorsAux env rest (executeSelector env cache sel).2
                          (dictInsert resolved (selKey (.obj sel))
                            (wrapSelectorResult (executeSelector env cache sel).1))
                    | _ => .error "AttributeError: startswith") = _
              rw [hfrom]
              show resolveSelectorsAux env rest (executeSelector env cache sel).2
                  (dictInsert resolved (selKey (.obj sel))
                    (wrapSelectorResult (executeSelector env cache sel).1)) = _
              rw [ih _ _ (fun s hs => hwf s (List.mem_cons_of_mem _ hs))]
              rfl

/-- Auxiliary: folding inserts whose keys avoid `k` preserves its lookup. -/
theorem foldl_dictInsert_notmem (pairs : List (String × Value)) :
    ∀ (d : List (String × Value)) (k : String), k ∉ pairs.map Prod.fst →
      (pairs.foldl (fun d kv => dictInsert d kv.1 kv.2) d).lookup k = d.lookup k := by
  induction pairs with
  | nil => intro d k _; rfl
  | cons p rest ih =>
      intro d k hk
      rw [List.map_cons, List.mem_cons] at hk
      push_neg at hk
      rw [List.foldl_cons, ih _ _ hk.2, lookup_dictInsert_ne _ _ _ _ hk.1]

/-- Auxiliary: with pairwise-distinct keys, folding the inserts binds every
pair's key to that pair's value, whatever the starting dict held. -/
theorem foldl_dictInsert_mem (pairs : List (String × Value)) :
    ∀ (d : List (String × Value)) (k : String) (v : Value),
      (pairs.map Prod.fst).Nodup → (k, v) ∈ pairs →
      (pairs.foldl (fun d kv => dictInsert d kv.1 kv.2) d).lookup k = some v := by
  induction pairs with
  | nil => intro d k v _ hm; cases hm
  | cons p rest ih =>
      intro d k v hnd hm
      rw [List.map_cons, List.nodup_cons] at hnd
      rcases List.mem_cons.mp hm with hm | hm
      · cases hm
        rw [List.foldl_cons, foldl_dictInsert_notmem rest _ _ hnd.1,
          lookup_dictInsert_self]
      · exact List.foldl_cons _ _ ▸ ih _ _ _ hnd.2 hm

/-- C6: a batch of well-formed selector specs with pairwise-distinct result
keys never aborts: `resolve_selectors` succeeds, and each selector's key is
bound to that selector's own outcome — its normal result, or the
`[Error: ...]` marker string if its execution raised (for example because
`from` names a nonexistent node) — independently of any other selector's
failure. -/
theorem chord_C6_batch_isolation (env : Env) (cache : Cache) (sels : List Value)
    (hwf : ∀ s ∈ sels, isWFSel s = true)
    (hdist : (sels.map selKey).Nodup) :
    ∃ res cache',
      resolveSelectors env cache sels = .ok (res, cache') ∧
      ∀ p ∈ selResultsList env sels cache, res.lookup p.1 = some p.2 := by
  refine ⟨_, _, resolveSelectorsAux_run env sels cache [] hwf, ?_⟩
  intro p hp
  have hkeys := selResultsList_keys env sels cache
  exact foldl_dictInsert_mem _ _ p.1 p.2 (hkeys ▸ hdist) hp

/-- Witness for C6: a batch whose first selector references a nonexistent
node and whose second extracts from a literal source. -/
theorem chord_C6_witness :
    ∃ res cache',
      resolveSelectors ⟨[], [], [], [], defaultOracles⟩ []
        [Value.obj [("from", Value.str "@missing")],
         Value.obj [("from", Value.str "hello"), ("op", Value.str "head"),
                    ("lines", Value.int 1)]] = .ok (res, cache') ∧
      ∀ p ∈ selResultsList ⟨[], [], [], [], defaultOracles⟩
          [Value.obj [("from", Value.str "@missing")],
           Value.obj [("from", Value.str "hello"), ("op", Value.str "head"),
                      ("lines", Value.int 1)]] [],
        res.lookup p.1 = some p.2 :=
  chord_C6_batch_isolation _ _ _
    (by
      intro s hs
      rcases List.mem_cons.mp hs with h | h
      · subst h; rfl
      · rcases List.mem_cons.mp h with h2 | h2
        · subst h2; rfl
        · cases h2)
    (by decide)

/-- The task ids a flow's edge list asks to execute: one per edge with a
truthy string `to` reference, in edge order; nothing else about an edge
(`from`, guards, parallel or schedule metadata) contributes. -/
def edgeTaskIds : List Value → Except String (List String)
  | [] => .ok []
  | edgeV :: rest =>
      match edgeV with
      | .obj edge =>
          let toVal := dictGetD edge "to" (.str "")
          if pyTruthy toVal then
            match toVal with
            | .str toRef =>
                if strStartsWith toRef "@" then
                  (edgeTaskIds rest).map (fun more => rootOf toRef :: more)
                else edgeTaskIds rest
            | _ => .error "AttributeError: startswith"
          else edgeTaskIds rest
      | _ => .error "AttributeError: get"

/-- Sequential task execution: run the named tasks once each, in order,
collecting their results. -/
def runTasks (env : Env) : List String → Cache → List Value →
    Except String (List Value × Cache)
  | [], cache, results => .ok (results, cache)
  | t :: ts, cache, results => do
      let (r, cache') ← executeTask env cache t
      runTasks env ts cache' (results ++ [r])

/-- Auxiliary: the edge loop of `execute_flow` is exactly sequential
execution of the edge task ids. -/
theorem execEdges_eq_runTasks (env : Env) :
    ∀ (edges : List Value) (ts : List String), edgeTaskIds edges = .ok ts →
      ∀ (cache : Cache) (results : List Value),
        execEdges env edges cache results = runTasks env ts cache results := by
  intro edges
  induction edges with
  | nil =>
      intro ts hts cache results
      cases hts
      rfl
  | cons edgeV rest ih =>
      intro ts hts cache results
      match edgeV with
      | .str _ | .int _ | .bool _ | .null | .arr _ => cases hts
      | .obj edge =>
          simp only [edgeTaskIds] at hts
          simp only [execEdges]
          cases htr : pyTruthy (dictGetD edge "to" (.str "")) with
          | false =>
              simp only [htr, Bool.false_eq_true, if_false] at hts ⊢
              exact ih ts hts cache results
          | true =>
              simp only [htr, if_true] at hts ⊢
              cases htov : dictGetD edge "to" (.str "") with
              | str toRef =>
                  simp only [htov] at hts ⊢
                  cases hat : strStartsWith toRef "@" with
                  | false =>
                      simp only [hat, Bool.false_eq_true, if_false] at hts ⊢
                      exact ih ts hts cache results
                  | true =>
                      simp only [hat, if_true] at hts ⊢
                      cases hmore : edgeTaskIds rest with
                      | error e => simp [hmore, Except.map] at hts
                      | ok more =>
                          simp only [hmore, Except.map] at hts
                          cases hts
                          simp only [runTasks]
                          cases hT : executeTask env cache (rootOf toRef) with
                          | error e => rfl
                          | ok rc =>
                              obtain ⟨r, c'⟩ := rc
                              show execEdges env rest c' (results ++ [r]) =
                                runTasks env more c' (results ++ [r])
                              exact ih more hmore c' (results ++ [r])
              | int n => simp only [htov] at hts; cases hts
              | bool b => simp only [htov] at hts; cases hts
              | null => simp only [htov] at hts; cases hts
              | arr xs => simp only [htov] at hts; cases hts
              | obj kvs => simp only [htov] at hts; cases hts

/-- Auxiliary: reduction of a successful `Except` bind. -/
theorem exceptOk_bind {α β ε : Type} (a : α) (f : α → Except ε β) :
    (Except.ok a >>= f) = f a := rfl

/-- Auxiliary: reduction of a failed `Except` bind. -/
theorem exceptError_bind {α β ε : Type} (e : ε) (f : α → Except ε β) :
    ((Except.error e : Except ε α) >>= f) = Except.error e := rfl

/-- Auxiliary: `execute_flow` after a successful flow lookup runs the body. -/
theorem executeFlow_found (env : Env) (cache : Cache) (flowId : Value)
    (flow : List (String × Value))
    (hfind : findByIdKey env.flows flowId = .ok (some flow)) :
    executeFlow env cache flowId = executeFlowBody env cache flowId flow := by
  unfold executeFlow
  rw [hfind, exceptOk_bind]

/-- Auxiliary: the entry block on a reference entry runs exactly the entry
task. -/
theorem flowEntryResults_ref (env : Env) (cache : Cache)
    (flow : List (String × Value)) (entry : String)
    (hentry : flow.lookup "entry" = some (Value.str entry))
    (hat : strStartsWith entry "@" = true) :
    flowEntryResults env cache flow =
      (match executeTask env cache (rootOf entry) with
       | .ok (r, cache') => .ok ([r], cache')
       | .error e => .error e) := by
  unfold flowEntryResults
  rw [hentry]
  simp only [hat, if_true]
  cases hT : executeTask env cache (rootOf entry) with
  | error e => rfl
  | ok rc =>
      obtain ⟨r, c'⟩ := rc
      rfl

/-- C7: `execute_flow` on a located flow whose `entry` is a task reference
executes the entry task first and then, for every declared edge in
declaration order, the edge's `to` task — unconditionally, once per edge,
with `from`, parallel, conditional and schedule metadata ignored (only the
`to` field contributes to `edgeTaskIds`); the flow result collects the task
results in that execution order. -/
theorem chord_C7_flow_order (env : Env) (cache : Cache) (flowId : Value)
    (flow : List (String × Value)) (entry : String) (edges : List Value)
    (ts : List String)
    (hfind : findByIdKey env.flows flowId = .ok (some flow))
    (hentry : flow.lookup "entry" = some (Value.str entry))
    (hat : strStartsWith entry "@" = true)
    (hedges : dictGetD flow "edges" (.arr []) = Value.arr edges)
    (hts : edgeTaskIds edges = .ok ts) :
    executeFlow env cache flowId =
      (runTasks env (rootOf entry :: ts) cache []).map
        (fun rc => (Value.obj [("flow_id", flowId), ("results", Value.arr rc.1)],
                    rc.2)) := by
  rw [executeFlow_found env cache flowId flow hfind]
  unfold executeFlowBody
  rw [flowEntryResults_ref env cache flow entry hentry hat]
  rw [show runTasks env (rootOf entry :: ts) cache [] =
      (match executeTask env cache (rootOf entry) with
       | .ok (r, cache') => runTasks env ts cache' [r]
       | .error e => .error e) from by
    show (do
        let (r, cache') ← executeTask env cache (rootOf entry)
        runTasks env ts cache' ([] ++ [r])) = _
    cases hT : executeTask env cache (rootOf entry) with
    | error e => rfl
    | ok rc =>
        obtain ⟨r, c'⟩ := rc
        show runTasks env ts c' ([] ++ [r]) = runTasks env ts c' [r]
        rw [List.nil_append]]
  cases hT : executeTask env cache (rootOf entry) with
  | error e => rfl
  | ok rc =>
      obtain ⟨r, c'⟩ := rc
      rw [exceptOk_bind]
      rw [show (match Except.ok (r, c') with
           | Except.ok (r, cache') => runTasks env ts cache' [r]
           | Except.error e => (Except.error e : Except String (List Value × Cache))) =
          runTasks env ts c' [r] from rfl]
      show (match dictGetD flow "edges" (Value.arr []) with
            | Value.arr edges => do
                let (results', cache'') ← execEdges env edges c' [r]
                Except.ok (Value.obj [("flow_id", flowId),
                  ("results", Value.arr results')], cache'')
            | _ => (Except.error "TypeError: not iterable" :
                Except String (Value × Cache))) = _
      rw [hedges]
      show (do
          let (results', cache'') ← execEdges env edges c' [r]
          Except.ok (Value.obj [("flow_id", flowId),
            ("results", Value.arr results')], cache'')) = _
      rw [execEdges_eq_runTasks env edges ts hts c' [r]]
      cases hR : runTasks env ts c' [r] with
      | error e => rfl
      | ok rc' =>
          obtain ⟨results', cache''⟩ := rc'
          rfl

/-- Witness for C7: a flow with entry `@taskA` and one edge to `@taskB`
(carrying `from` and `parallel` metadata) executes taskA then taskB exactly
once each, in that order. -/
theorem chord_C7_witness :
    executeFlow
      ⟨[("taskA", ⟨"task", "taskA", []⟩), ("taskB", ⟨"task", "taskB", []⟩)],
       [], [[("id", Value.str "f"), ("entry", Value.str "@taskA"),
             ("edges", Value.arr [Value.obj
               [("from", Value.str "@taskA"), ("to", Value.str "@taskB"),
                ("parallel", Value.bool true)]])]], [], defaultOracles⟩
      [] (Value.str "f") =
      .ok (Value.obj [("flow_id", Value.str "f"),
        ("results", Value.arr
          [Value.obj [("task_id", Value.str "taskA"), ("status", Value.str "no_views")],
           Value.obj [("task_id", Value.str "taskB"), ("status", Value.str "no_views")]])],
        []) := by
  rw [chord_C7_flow_order
    ⟨[("taskA", ⟨"task", "taskA", []⟩), ("taskB", ⟨"task", "taskB", []⟩)],
     [], [[("id", Value.str "f"), ("entry", Value.str "@taskA"),
           ("edges", Value.arr [Value.obj
             [("from", Value.str "@taskA"), ("to", Value.str "@taskB"),
              ("parallel", Value.bool true)]])]], [], defaultOracles⟩
    [] (Value.str "f")
    [("id", Value.str "f"), ("entry", Value.str "@taskA"),
     ("edges", Value.arr [Value.obj
       [("from", Value.str "@taskA"), ("to", Value.str "@taskB"),
        ("parallel", Value.bool true)]])]
    "@taskA"
    [Value.obj [("from", Value.str "@taskA"), ("to", Value.str "@taskB"),
                ("parallel", Value.bool true)]]
    ["taskB"] rfl rfl rfl rfl rfl]
  rfl

/-- C4 counterexample: in the multi-line string
`|` / `  a` / `    b` / `z x`, the line `b` is indented two columns deeper
than the first body line, yet the produced token value is `"a\nb"` — all of
its leading whitespace is stripped, not just the first body line's two
columns — where the claim predicts `"a\n  b"`. The terminating less-indented
line `z x` is (as claimed) not consumed. -/
theorem chord_C4_counterexample :
    readMultilineString "|\n  a\n    b\nz x".data = ("a\nb", "z x".data) ∧
    "a\nb" ≠ "a\n  b" :=
  ⟨rfl, by decide⟩

/-- A body line with indentation, encoded back to source text. -/
def encLine (p : Nat × String) : List Char :=
  List.replicate p.1 ' ' ++ (p.2.data ++ ['\n'])

/-- Line content in canonical form: no newline inside, and not beginning
with the space/tab that would count as indentation. -/
def mlGoodContent (s : String) : Bool :=
  s.data.all (fun c => c ≠ '\n') &&
    (match s.data with
     | [] => true
     | c :: _ => c ≠ ' ' && c ≠ '\t')

/-- Auxiliary: the indent counter consumes exactly a maximal space run. -/
theorem countIndentS_replicate (n : Nat) (r : List Char)
    (h : ∀ c, r.head? = some c → c ≠ ' ' ∧ c ≠ '\t') :
    countIndentS (List.replicate n ' ' ++ r) = (n, r) := by
  induction n with
  | zero =>
      rw [List.replicate_zero, List.nil_append]
      cases r with
      | nil => rfl
      | cons c cs =>
          have hc := h c rfl
          simp [countIndentS, hc.1, hc.2]
  | succ n ih =>
      rw [List.replicate_succ, List.cons_append]
      simp [countIndentS, ih]

/-- Auxiliary: the content state accumulates a newline-free run and then
re-enters indentation counting past the newline. -/
theorem mlContent_through (w : List Char) (hw : ∀ c ∈ w, c ≠ '\n') :
    ∀ (rest : List Char) (base : Nat) (cur : List Char) (lines : List String),
      mlContent (w ++ '\n' :: rest) base cur lines =
        mlIndent rest base 0 rest (lines ++ [String.mk (cur ++ w)]) := by
  induction w with
  | nil =>
      intro rest base cur lines
      simp [mlContent]
  | cons c w ih =>
      intro rest base cur lines
      have hc : c ≠ '\n' := hw c (List.mem_cons_self c w)
      rw [List.cons_append]
      simp only [mlContent, hc, if_false]
      rw [ih (fun d hd => hw d (List.mem_cons_of_mem c hd)) rest base (cur ++ [c]) lines]
      simp [List.append_assoc]

/-- Auxiliary: the indentation state consumes a space run into the count. -/
theorem mlIndent_replicate (n : Nat) :
    ∀ (r : List Char) (base i : Nat) (ls : List Char) (lines : List String),
      mlIndent (List.replicate n ' ' ++ r) base i ls lines =
        mlIndent r base (i + n) ls lines := by
  induction n with
  | zero =>
      intro r base i ls lines
      rw [List.replicate_zero, List.nil_append, Nat.add_zero]
  | succ n ih =>
      intro r base i ls lines
      rw [List.replicate_succ, List.cons_append]
      simp only [mlIndent, if_pos (Or.inl rfl)]
      rw [ih r base (i + 1) ls lines]
      have harith : i + 1 + n = i + (n + 1) := by omega
      rw [harith]
      simp

/-- The encoded body: each line's indentation, content and newline, in
order. -/
def encBody : List (Nat × String) → List Char
  | [] => []
  | p :: rest => encLine p ++ encBody rest

/-- Auxiliary: the body loop consumes every encoded body line — stripping
ALL of its leading whitespace, whatever its depth — and stops at the first
less-indented nonempty line, which it does not consume (the returned
position is that line's start). -/
theorem mlIndent_body (base tIndent : Nat) (tContent : String)
    (hterm : tIndent < base) (htc : tContent ≠ "")
    (htg : mlGoodContent tContent = true) :
    ∀ (body : List (Nat × String)),
      (∀ p ∈ body, mlGoodContent p.2 = true ∧ (p.2 ≠ "" → base ≤ p.1)) →
      ∀ (lines : List String),
        mlIndent
          (encBody body ++ (List.replicate tIndent ' ' ++ tContent.data))
          base 0
          (encBody body ++ (List.replicate tIndent ' ' ++ tContent.data))
          lines =
        (lines ++ body.map (fun p => p.2),
         List.replicate tIndent ' ' ++ tContent.data) := by
  intro body
  induction body with
  | nil =>
      intro _ lines
      show mlIndent (List.replicate tIndent ' ' ++ tContent.data) base 0
          (List.replicate tIndent ' ' ++ tContent.data) lines = _
      rw [mlIndent_replicate tIndent tContent.data base 0 _ lines, Nat.zero_add]
      match hd : tContent.data with
      | [] =>
          exact absurd (by cases tContent with | mk d => cases hd; rfl) htc
      | c :: cs =>
          rw [mlGoodContent, hd] at htg
          have hparts := (Bool.and_eq_true _ _).mp htg
          have hc1 : c ≠ '\n' := by
            have hall := (List.all_eq_true).mp hparts.1 c (List.mem_cons_self c cs)
            simpa using hall
          have hc2 : ¬ (c = ' ' ∨ c = '\t') := by
            have h2 := hparts.2
            rw [Bool.and_eq_true] at h2
            rintro (h | h)
            · rw [h] at h2
              simpa using h2.1
            · rw [h] at h2
              simpa using h2.2
          simp only [mlIndent, if_neg hc2, if_pos (And.intro hterm hc1)]
          simp
  | cons p rest ih =>
      intro hbody lines
      obtain ⟨i, w⟩ := p
      have hgood := hbody (i, w) (List.mem_cons_self _ rest)
      rw [show encBody ((i, w) :: rest) ++
            (List.replicate tIndent ' ' ++ tContent.data) =
          List.replicate i ' ' ++ (w.data ++ '\n' ::
            (encBody rest ++ (List.replicate tIndent ' ' ++ tContent.data))) from by
        show (List.replicate i ' ' ++ (w.data ++ ['\n'])) ++ encBody rest ++
            (List.replicate tIndent ' ' ++ tContent.data) = _
        simp [List.append_assoc]]
      rw [mlIndent_replicate i _ base 0 _ lines, Nat.zero_add]
      match hd : w.data with
      | [] =>
          have hwempty : w = "" := by cases w with | mk d => cases hd; rfl
          rw [List.nil_append]
          have hnotws : ¬ ('\n' = ' ' ∨ '\n' = '\t') := by decide
          have hnb : ¬ (i < base ∧ '\n' ≠ '\n') := by simp
          simp only [mlIndent, if_neg hnotws, if_neg hnb, if_pos rfl]
          rw [ih (fun q hq => hbody q (List.mem_cons_of_mem _ hq))
            (lines ++ [String.mk []])]
          rw [hwempty, List.append_assoc]
          rfl
      | c :: cs =>
          have hwg := hgood.1
          rw [mlGoodContent, hd] at hwg
          have hparts := (Bool.and_eq_true _ _).mp hwg
          have hc1 : c ≠ '\n' := by
            have hall := (List.all_eq_true).mp hparts.1 c (List.mem_cons_self c cs)
            simpa using hall
          have hcs : ∀ d ∈ cs, d ≠ '\n' := by
            intro d hdm
            have hall := (List.all_eq_true).mp hparts.1 d (List.mem_cons_of_mem c hdm)
            simpa using hall
          have hc2 : ¬ (c = ' ' ∨ c = '\t') := by
            have h2 := hparts.2
            rw [Bool.and_eq_true] at h2
            rintro (h | h)
            · rw [h] at h2
              simpa using h2.1
            · rw [h] at h2
              simpa using h2.2
          have hle : base ≤ i := hgood.2 (by
            intro hw
            have hw' : w = "" := hw
            rw [hw'] at hd
            cases hd)
          have hnlt : ¬ (i < base ∧ c ≠ '\n') := by
            rintro ⟨hlt, _⟩
            omega
          rw [List.cons_append]
          simp only [mlIndent, if_neg hc2, if_neg hnlt, if_neg hc1]
          rw [mlContent_through cs hcs _ base [c] lines]
          rw [ih (fun q hq => hbody q (List.mem_cons_of_mem _ hq))
            (lines ++ [String.mk ([c] ++ cs)])]
          rw [show String.mk ([c] ++ cs) = w from by
            cases w with | mk d => cases hd; rfl]
          rw [List.append_assoc]
          rfl

/-- C4 amended: for a `|` string whose first body line is indented `base`
columns, the token value is the body lines' contents with ALL leading
spaces/tabs stripped from every line — the first body line's indentation
serves only as the termination threshold, so a deeper-indented line does
NOT keep its extra indentation — and the body ends at the first line that
is indented strictly less than `base` and is nonempty and not a blank
line; that line is not consumed: the lexer position is rewound to its
start. Blank body lines may carry any indentation and contribute empty
lines. -/
theorem chord_C4_amended (base tIndent : Nat) (first tContent : String)
    (body : List (Nat × String))
    (hfirst : mlGoodContent first = true)
    (hbody : ∀ p ∈ body, mlGoodContent p.2 = true ∧ (p.2 ≠ "" → base ≤ p.1))
    (hterm : tIndent < base) (htc : tContent ≠ "")
    (htg : mlGoodContent tContent = true) :
    readMultilineString
      ('|' :: '\n' :: (List.replicate base ' ' ++ (first.data ++ '\n' ::
        (encBody body ++ (List.replicate tIndent ' ' ++ tContent.data))))) =
      (pyJoin "\n" (first :: body.map (fun p => p.2)),
       List.replicate tIndent ' ' ++ tContent.data) := by
  have hcount : countIndentS (List.replicate base ' ' ++ (first.data ++ '\n' ::
      (encBody body ++ (List.replicate tIndent ' ' ++ tContent.data)))) =
      (base, first.data ++ '\n' ::
        (encBody body ++ (List.replicate tIndent ' ' ++ tContent.data))) := by
    apply countIndentS_replicate
    intro c hc
    cases hfd : first.data with
    | nil =>
        rw [hfd] at hc
        simp only [List.nil_append, List.head?] at hc
        cases hc
        decide
    | cons c0 cs0 =>
        rw [hfd] at hc
        simp only [List.cons_append, List.head?] at hc
        cases hc
        rw [mlGoodContent, hfd] at hfirst
        have hparts := (Bool.and_eq_true _ _).mp hfirst
        have h2 := hparts.2
        rw [Bool.and_eq_true] at h2
        constructor
        · simpa using h2.1
        · simpa using h2.2
  have hfnl : ∀ c ∈ first.data, c ≠ '\n' := by
    intro c hcm
    rw [mlGoodContent] at hfirst
    have hparts := (Bool.and_eq_true _ _).mp hfirst
    have hall := (List.all_eq_true).mp hparts.1 c hcm
    simpa using hall
  show (match countIndentS (List.replicate base ' ' ++ (first.data ++ '\n' ::
        (encBody body ++ (List.replicate tIndent ' ' ++ tContent.data)))) with
      | (b, s3) =>
          match mlContent s3 b [] [] with
          | (lines, rest) => (pyJoin "\n" lines, rest)) = _
  rw [hcount]
  show (match mlContent (first.data ++ '\n' ::
        (encBody body ++ (List.replicate tIndent ' ' ++ tContent.data))) base [] [] with
      | (lines, rest) => (pyJoin "\n" lines, rest)) = _
  rw [mlContent_through first.data hfnl _ base [] []]
  simp only [List.nil_append]
  rw [mlIndent_body base tIndent tContent hterm htc htg body hbody
    [String.mk first.data]]
  rw [show String.mk first.data = first from by cases first with | mk d => rfl]
  rfl

/-- Witness for C4 amended: base indentation 2, a deeper body line, a blank
line, and a terminating line at column 0. -/
theorem chord_C4_amended_witness :
    readMultilineString
      ('|' :: '\n' :: (List.replicate 2 ' ' ++ ("a".data ++ '\n' ::
        (encBody [(4, "b"), (3, "")] ++ (List.replicate 0 ' ' ++ "z".data))))) =
      ("a\nb\n", "z".data) := by
  rw [chord_C4_amended 2 0 "a" "z" [(4, "b"), (3, "")] (by decide)
    (by
      intro p hp
      rcases List.mem_cons.mp hp with h | h
      · subst h
        exact ⟨by decide, fun _ => by omega⟩
      · rcases List.mem_cons.mp h with h2 | h2
        · subst h2
          refine ⟨by decide, fun hcon => absurd rfl hcon⟩
        · cases h2)
    (by omega) (by decide) (by decide)]
  rfl

/-! ## Sanity checks for the Python-semantics string helpers -/

example : pySplitlines "a\nb\nc" = ["a", "b", "c"] := by decide
example : pySplitlines "a\r\nb\n" = ["a", "b"] := by decide
example : pySplitlines "" = [] := by decide
example : pyReplace "xaxa" "a" "bb" = "xbbxbb" := by decide
example : splitOnChar '.' "node.a.b" = ["node", "a", "b"] := by decide
example : splitOnChar '.' "" = [""] := by decide
example : pySliceLast ["a", "b", "c"] 0 = ["a", "b", "c"] := by decide
example : pySliceLast ["a", "b", "c"] 2 = ["b", "c"] := by decide
example : pySplitWS "  a  bc " = ["a", "bc"] := by decide
example :
    readMultilineString "|\n  a\n  b\n".data = ("a\nb", []) := by decide
example :
    readMultilineString "|\n  a\n\n  b\nc".data = ("a\n\nb", "c".data) := by decide
